import Mathlib

/-!
Shallow embedding of the teejays/load-balancer repository (Go).

Modelled source files:
- serverpool.go  : ServerPool, NewServerPool, RoundRobin, IncrementCurrentIndex
- target server  (src/serverpool.go, second unit): TargetServer, HealthStatus,
  IsHealthy, SetStatus, Degrade, RefreshHealthStatus, GetNewHealthStatus,
  getHealthStatusFromResponse, NewTargetServer
- main.go        : listenerHandler, proxyRequestToTarget, singleJoiningSlash

Modelling conventions:
- Go machine integers that stay small and non-negative (CurrentIndex, counters)
  are Nat; the Load field is Int as in Go.
- Go strings are Lean Strings, except in singleJoiningSlash where a Go string
  is modelled as its character sequence (List Char) since the function is pure
  character-sequence manipulation.
- Mutation is explicit state passing: a Go method that mutates its receiver
  becomes a Lean function returning the updated value.
- The HealthUpdated time.Time field and all logging calls are elided: no claim
  refers to timestamps or to log output.
- net/url parsing and the network are external collaborators: they enter as
  explicit parameters (a urlParse function, a probe outcome, a behavior map
  from backend address to response).
- Go's (T, error) returns become T x Option Err or Except Err T.
-/

deriving instance DecidableEq for Except

/-- Model of Go's strings.TrimSpace: drop whitespace from both ends of the
string (computed on the character sequence so that it reduces by computation;
ASCII whitespace suffices for every string the claims involve). -/
def trimSpace (s : String) : String :=
  String.mk (((s.data.dropWhile Char.isWhitespace).reverse.dropWhile Char.isWhitespace).reverse)

/-- Health status of a target server. In Go this is an int with
`StatusDegraded HealthStatus = iota` (so 0) and `StatusHealthy` (1); the Go
zero value of the field is therefore `StatusDegraded`. -/
inductive HealthStatus where
  | statusDegraded
  | statusHealthy
  deriving DecidableEq

/-- Model of Go's url.URL restricted to the fields the load balancer reads. -/
structure URLModel where
  scheme : String
  host : String
  path : String
  rawQuery : String
  deriving DecidableEq

/-- One backend target server (struct TargetServer). The HealthUpdated
timestamp is elided (see module comment). -/
structure TargetServer where
  address : String
  url : URLModel
  load : Int
  health : HealthStatus
  deriving DecidableEq

/-- The pool of target servers (struct ServerPool). The sync.Mutex is elided:
the model is sequential, matching the claims' no-concurrent-change hypotheses. -/
structure ServerPool where
  servers : List TargetServer
  currentIndex : Nat
  pauseHealthCheck : Bool
  deriving DecidableEq

/-- Errors produced by the pool and server constructors and by selection,
mirroring the named error values in serverpool.go. `parseFailure` carries the
message of the wrapped url.Parse error. -/
inductive PoolError where
  | noServerAddressForPool
  | duplicateServerAddress
  | noHealthyServer
  | emptyAddress
  | parseFailure (msg : String)
  deriving DecidableEq

/-- IsHealthy returns true exactly when the server's health is StatusHealthy
(method TargetServer.IsHealthy). -/
def TargetServer.IsHealthy (s : TargetServer) : Bool :=
  s.health = HealthStatus.statusHealthy

/-- SetStatus writes the health field (method TargetServer.SetStatus; the
transition log messages and the HealthUpdated timestamp write are elided). -/
def TargetServer.SetStatus (s : TargetServer) (status : HealthStatus) : TargetServer :=
  { s with health := status }

/-- Degrade is SetStatus(StatusDegraded) (method TargetServer.Degrade). -/
def TargetServer.Degrade (s : TargetServer) : TargetServer :=
  s.SetStatus HealthStatus.statusDegraded

/-- IncrementCurrentIndex advances the rotation cursor by one, wrapping to 0
when it would reach the pool size (method ServerPool.IncrementCurrentIndex). -/
def ServerPool.IncrementCurrentIndex (pool : ServerPool) : ServerPool :=
  if pool.currentIndex + 1 ≥ pool.servers.length then
    { pool with currentIndex := 0 }
  else
    { pool with currentIndex := pool.currentIndex + 1 }

/-- Loop body of RoundRobin. The Go loop counts scanned servers in `cnt` and
breaks when `cnt >= len(pool.Servers)`; here `fuel` is the remaining number of
allowed scans (`len - cnt`), so `fuel = 0` is the break. The branch where the
cursor is out of range cannot be reached from a pool whose cursor is below the
pool size (Go would panic there); it returns the same error for totality. -/
def roundRobinLoop : Nat → ServerPool → ServerPool × Except PoolError Nat
  | 0, pool => (pool, Except.error PoolError.noHealthyServer)
  | fuel + 1, pool =>
    if h : pool.currentIndex < pool.servers.length then
      if (pool.servers.get ⟨pool.currentIndex, h⟩).IsHealthy then
        (pool.IncrementCurrentIndex, Except.ok pool.currentIndex)
      else
        roundRobinLoop fuel pool.IncrementCurrentIndex
    else
      (pool, Except.error PoolError.noHealthyServer)

/-- RoundRobin scans forward from the cursor for up to `len(pool.Servers)`
steps, returning the index of the first healthy server and the pool with its
cursor advanced past that server; if the full scan finds no healthy server it
returns ErrNoHealthyServer (function RoundRobin in serverpool.go; Go also
returns the junk index -1 alongside the error, which Except drops). -/
def RoundRobin (pool : ServerPool) : ServerPool × Except PoolError Nat :=
  roundRobinLoop pool.servers.length pool

/-- Iterated selection: the results of `n` consecutive RoundRobin calls, in
call order, together with the final pool state. -/
def selectList : Nat → ServerPool → List (Except PoolError Nat) × ServerPool
  | 0, pool => ([], pool)
  | n + 1, pool =>
    let step := RoundRobin pool
    let rest := selectList n step.1
    (step.2 :: rest.1, rest.2)

/-- Structure of the JSON body served by a backend's /_health endpoint
(struct HealthResponse). -/
structure HealthResponse where
  state : String
  message : String
  deriving DecidableEq

/-- Errors a health probe can produce, mirroring the error values returned by
GetNewHealthStatus and getHealthStatusFromResponse: a network error from
http.Get, a body-read error from ioutil.ReadAll, a json.Unmarshal error, and
the two named errors for an empty or unrecognized state string. -/
inductive ProbeError where
  | netError
  | readError
  | parseError
  | emptyStatus
  | invalidStatus
  deriving DecidableEq

/-- Outcome of the external side of one health probe: the HTTP GET plus body
read plus JSON decode of `<address>/_health`. The network is an external
collaborator, so the outcome is an explicit input. -/
inductive ProbeOutcome where
  | netError
  | readError
  | parseError
  | parsed (hr : HealthResponse)
  deriving DecidableEq

/-- getHealthStatusFromResponse maps a decoded health response to a status:
an all-whitespace state is the empty-status error, the exact strings
"healthy" and "degraded" map through the lookup map, and anything else is the
invalid-status error; every error case carries StatusDegraded. -/
def getHealthStatusFromResponse (hr : HealthResponse) : HealthStatus × Option ProbeError :=
  if trimSpace hr.state = "" then
    (HealthStatus.statusDegraded, some ProbeError.emptyStatus)
  else if hr.state = "healthy" then
    (HealthStatus.statusHealthy, none)
  else if hr.state = "degraded" then
    (HealthStatus.statusDegraded, none)
  else
    (HealthStatus.statusDegraded, some ProbeError.invalidStatus)

/-- GetNewHealthStatus fetches a fresh status for the server without updating
it: network, read and decode failures yield (StatusDegraded, error), a decoded
body goes through getHealthStatusFromResponse (method
TargetServer.GetNewHealthStatus; the probe outcome input stands for the HTTP
round trip to s.Address/_health). -/
def TargetServer.GetNewHealthStatus (_s : TargetServer) (outcome : ProbeOutcome) :
    HealthStatus × Option ProbeError :=
  match outcome with
  | ProbeOutcome.netError => (HealthStatus.statusDegraded, some ProbeError.netError)
  | ProbeOutcome.readError => (HealthStatus.statusDegraded, some ProbeError.readError)
  | ProbeOutcome.parseError => (HealthStatus.statusDegraded, some ProbeError.parseError)
  | ProbeOutcome.parsed hr => getHealthStatusFromResponse hr

/-- RefreshHealthStatus gets a new status, writes it with SetStatus, and
returns the probe error to the caller (method TargetServer.RefreshHealthStatus). -/
def TargetServer.RefreshHealthStatus (s : TargetServer) (outcome : ProbeOutcome) :
    TargetServer × Option ProbeError :=
  let res := s.GetNewHealthStatus outcome
  (s.SetStatus res.1, res.2)

/-- NewTargetServer rejects an address that trims to empty with
ErrEmptyAddress, passes the address through url.Parse (an external
collaborator, hence the urlParse parameter) propagating its failure wrapped in
a message, and otherwise builds a server whose Load and Health fields keep
their Go zero values (0 and StatusDegraded). -/
def NewTargetServer (urlParse : String → Except String URLModel) (address : String) :
    Except PoolError TargetServer :=
  if trimSpace address = "" then
    Except.error PoolError.emptyAddress
  else
    match urlParse address with
    | Except.error e => Except.error (PoolError.parseFailure e)
    | Except.ok u =>
        Except.ok { address := address, url := u, load := 0,
                    health := HealthStatus.statusDegraded }

/-- Loop body of NewServerPool: walk the address list in order carrying the
set of already-seen addresses; a repeated address fails with
ErrDuplicateServerAddress (the check runs before construction of that entry),
a NewTargetServer failure is propagated, and otherwise the servers are
collected in input order. -/
def buildServers (urlParse : String → Except String URLModel) (seen : List String) :
    List String → Except PoolError (List TargetServer)
  | [] => Except.ok []
  | a :: rest =>
    if seen.contains a then
      Except.error PoolError.duplicateServerAddress
    else
      match NewTargetServer urlParse a with
      | Except.error e => Except.error e
      | Except.ok server =>
        match buildServers urlParse (a :: seen) rest with
        | Except.error e => Except.error e
        | Except.ok servers => Except.ok (server :: servers)

/-- NewServerPool fails with ErrNoServerAddressForPool on an empty address
list and otherwise builds the server array via buildServers; the new pool
starts with cursor 0 and health checks not paused (function NewServerPool;
the spawned health-check goroutine is an external concern and is elided). -/
def NewServerPool (urlParse : String → Except String URLModel) (addrs : List String) :
    Except PoolError ServerPool :=
  if addrs.length < 1 then
    Except.error PoolError.noServerAddressForPool
  else
    match buildServers urlParse [] addrs with
    | Except.error e => Except.error e
    | Except.ok servers =>
        Except.ok { servers := servers, currentIndex := 0, pauseHealthCheck := false }

/-- Result of one dispatch of an inbound request, as observed by the client:
a relayed backend response with its status code, an error response written by
http.Error (503 for selection failure and for transport failure), or the
fuel-exhaustion marker of the embedding (never reached with enough fuel, see
the termination theorem). -/
inductive DispatchResult where
  | response (status : Nat)
  | errorResponse (status : Nat)
  | outOfFuel
  deriving DecidableEq

/-- listenerHandler together with proxyRequestToTarget (main.go): select a
target with RoundRobin (selection failure is a 503 via http.Error); perform
the round trip (`behavior` maps a backend address to none for a transport
error, relayed as 503, or to the response status code); a 500 status degrades
the selected server in place and re-enters listenerHandler; any other status
is relayed to the client. The Go recursion is unbounded, so the embedding
carries fuel; `behavior` being a function of the address encodes the claims'
hypothesis that nothing else changes health during the dispatch. -/
def listenerHandler (behavior : String → Option Nat) :
    Nat → ServerPool → DispatchResult × ServerPool
  | 0, pool => (DispatchResult.outOfFuel, pool)
  | fuel + 1, pool =>
    match RoundRobin pool with
    | (pool1, Except.error _) => (DispatchResult.errorResponse 503, pool1)
    | (pool1, Except.ok index) =>
      match pool1.servers[index]? with
      | none => (DispatchResult.outOfFuel, pool1)
      | some target =>
        match behavior target.address with
        | none => (DispatchResult.errorResponse 503, pool1)
        | some code =>
          if code = 500 then
            listenerHandler behavior fuel
              { pool1 with servers := pool1.servers.set index target.Degrade }
          else
            (DispatchResult.response code, pool1)

/-- Number of healthy servers in the pool. -/
def ServerPool.healthyCount (pool : ServerPool) : Nat :=
  pool.servers.countP (fun s => s.IsHealthy)

/-- singleJoiningSlash (main.go), with a Go string modelled as its character
sequence: when a ends with a slash and b starts with one, the result is a
with b minus its first character; when neither holds, a slash is inserted;
otherwise plain concatenation. -/
def singleJoiningSlash (a b : List Char) : List Char :=
  let aslash := a.getLast? == some '/'
  let bslash := b.head? == some '/'
  if aslash && bslash then a ++ b.tail
  else if !aslash && !bslash then a ++ ['/'] ++ b
  else a ++ b

/-- Placeholder URL value for concrete test pools. -/
def url0 : URLModel :=
  { scheme := "http", host := "localhost", path := "", rawQuery := "" }

/-- Concrete url.Parse stand-in that accepts every address. -/
def urlParse0 : String → Except String URLModel :=
  fun _ => Except.ok url0

/-- Concrete healthy backend A. -/
def serverA : TargetServer :=
  { address := "http://a", url := url0, load := 0, health := HealthStatus.statusHealthy }

/-- Concrete degraded backend B. -/
def serverB : TargetServer :=
  { address := "http://b", url := url0, load := 0, health := HealthStatus.statusDegraded }

/-- Concrete healthy backend C. -/
def serverC : TargetServer :=
  { address := "http://c", url := url0, load := 0, health := HealthStatus.statusHealthy }

/-- The [A, B, C] scenario pool of claim C2: A and C healthy, B degraded,
cursor 0. -/
def poolABC : ServerPool :=
  { servers := [serverA, serverB, serverC], currentIndex := 0, pauseHealthCheck := false }

/-- A two-server all-healthy pool at cursor 0. -/
def poolAC : ServerPool :=
  { servers := [serverA, serverC], currentIndex := 0, pauseHealthCheck := false }

/-- A one-server pool whose only backend is degraded. -/
def poolOnlyB : ServerPool :=
  { servers := [serverB], currentIndex := 0, pauseHealthCheck := false }

/-- A one-server pool whose only backend is healthy. -/
def poolOnlyA : ServerPool :=
  { servers := [serverA], currentIndex := 0, pauseHealthCheck := false }

/-- A backend world in which every round trip answers with status 500. -/
def behavior500 : String → Option Nat :=
  fun _ => some 500

/-- A backend world in which every round trip answers with status 502: a
server-error status that is not 500. -/
def behavior502 : String → Option Nat :=
  fun _ => some 502

/-- IncrementCurrentIndex never touches the server array. -/
theorem incrementCurrentIndex_servers (pool : ServerPool) :
    pool.IncrementCurrentIndex.servers = pool.servers := by
  unfold ServerPool.IncrementCurrentIndex
  split <;> rfl

/-- IncrementCurrentIndex never touches the pause flag. -/
theorem incrementCurrentIndex_pause (pool : ServerPool) :
    pool.IncrementCurrentIndex.pauseHealthCheck = pool.pauseHealthCheck := by
  unfold ServerPool.IncrementCurrentIndex
  split <;> rfl

/-- For an in-range cursor, IncrementCurrentIndex is the successor modulo the
pool size. -/
theorem incrementCurrentIndex_eq_mod (pool : ServerPool)
    (h : pool.currentIndex < pool.servers.length) :
    pool.IncrementCurrentIndex
      = { pool with currentIndex := (pool.currentIndex + 1) % pool.servers.length } := by
  unfold ServerPool.IncrementCurrentIndex
  by_cases hc : pool.currentIndex + 1 ≥ pool.servers.length
  · have he : pool.currentIndex + 1 = pool.servers.length := by omega
    rw [if_pos hc, he, Nat.mod_self]
  · have hlt : pool.currentIndex + 1 < pool.servers.length := by omega
    rw [if_neg hc, Nat.mod_eq_of_lt hlt]

/-- The selection loop never touches the server array. -/
theorem roundRobinLoop_servers : ∀ (fuel : Nat) (pool : ServerPool),
    (roundRobinLoop fuel pool).1.servers = pool.servers := by
  intro fuel
  induction fuel with
  | zero => intro pool; rfl
  | succ n ih =>
    intro pool
    rw [roundRobinLoop]
    by_cases h : pool.currentIndex < pool.servers.length
    · rw [dif_pos h]
      by_cases hh : (pool.servers.get ⟨pool.currentIndex, h⟩).IsHealthy
      · rw [if_pos hh]
        exact incrementCurrentIndex_servers pool
      · rw [if_neg hh, ih pool.IncrementCurrentIndex, incrementCurrentIndex_servers]
    · rw [dif_neg h]

/-- RoundRobin never touches the server array. -/
theorem roundRobin_servers (pool : ServerPool) :
    (RoundRobin pool).1.servers = pool.servers :=
  roundRobinLoop_servers pool.servers.length pool

/-- Whenever the selection loop returns an index, the server at that index is
healthy (and the index is in range). -/
theorem roundRobinLoop_ok_healthy : ∀ (fuel : Nat) (pool : ServerPool) (i : Nat),
    (roundRobinLoop fuel pool).2 = Except.ok i →
    ∃ s : TargetServer, pool.servers[i]? = some s ∧ s.IsHealthy = true := by
  intro fuel
  induction fuel with
  | zero => intro pool i hok; exact absurd hok (by simp [roundRobinLoop])
  | succ n ih =>
    intro pool i hok
    rw [roundRobinLoop] at hok
    by_cases h : pool.currentIndex < pool.servers.length
    · rw [dif_pos h] at hok
      by_cases hh : (pool.servers.get ⟨pool.currentIndex, h⟩).IsHealthy
      · rw [if_pos hh] at hok
        simp only [Except.ok.injEq] at hok
        subst hok
        exact ⟨pool.servers.get ⟨pool.currentIndex, h⟩,
          by simp [List.getElem?_eq_getElem h], by simpa using hh⟩
      · rw [if_neg hh] at hok
        obtain ⟨s, hsome, hhe⟩ := ih pool.IncrementCurrentIndex i hok
        rw [incrementCurrentIndex_servers] at hsome
        exact ⟨s, hsome, hhe⟩
    · rw [dif_neg h] at hok
      exact absurd hok (by simp)

/-- On an all-healthy pool with an in-range cursor, one RoundRobin call
returns the cursor itself and advances it by one modulo the pool size. -/
theorem roundRobin_all_healthy (pool : ServerPool)
    (hall : ∀ s ∈ pool.servers, s.IsHealthy = true)
    (hc : pool.currentIndex < pool.servers.length) :
    RoundRobin pool
      = ({ pool with currentIndex := (pool.currentIndex + 1) % pool.servers.length },
         Except.ok pool.currentIndex) := by
  have hlen : pool.servers.length = (pool.servers.length - 1) + 1 := by omega
  rw [RoundRobin, hlen, roundRobinLoop, dif_pos hc,
    if_pos (hall _ (pool.servers.get_mem _ _)), incrementCurrentIndex_eq_mod pool hc, ← hlen]

/-- On an all-healthy pool, n consecutive selections return the n successive
cursor positions modulo the pool size. -/
theorem selectList_all_healthy : ∀ (n : Nat) (pool : ServerPool),
    (∀ s ∈ pool.servers, s.IsHealthy = true) →
    pool.currentIndex < pool.servers.length →
    (selectList n pool).1
      = (List.range n).map
          (fun i => Except.ok ((pool.currentIndex + i) % pool.servers.length)) := by
  intro n
  induction n with
  | zero => intro pool _ _; rfl
  | succ m ih =>
    intro pool hall hc
    have hpos : 0 < pool.servers.length := by omega
    rw [selectList]
    simp only [roundRobin_all_healthy pool hall hc]
    rw [ih { pool with currentIndex := (pool.currentIndex + 1) % pool.servers.length }
      hall (Nat.mod_lt _ hpos)]
    rw [List.range_succ_eq_map, List.map_cons, List.map_map]
    simp only [Nat.add_zero, Nat.mod_eq_of_lt hc]
    congr 1
    apply List.map_congr_left
    intro i _
    simp only [Function.comp_apply, Except.ok.injEq]
    rw [Nat.mod_add_mod]
    congr 1
    omega

/-- C1: for every pool of N >= 1 backends that are all healthy, with the
cursor at 0 and no health-status change during the calls, N consecutive
round-robin selections return the indices 0, 1, ..., N-1 in that order, and
the (N+1)-th call returns index 0 again. -/
theorem claim_C1_round_robin_cycle (pool : ServerPool) (N : Nat)
    (hN : pool.servers.length = N) (h1 : 1 ≤ N)
    (hall : ∀ s ∈ pool.servers, s.IsHealthy = true)
    (hc : pool.currentIndex = 0) :
    (selectList (N + 1) pool).1 = (List.range N).map Except.ok ++ [Except.ok 0] := by
  subst hN
  have hcl : pool.currentIndex < pool.servers.length := by omega
  rw [selectList_all_healthy (pool.servers.length + 1) pool hall hcl, hc]
  simp only [Nat.zero_add]
  rw [List.range_succ, List.map_append]
  congr 1
  · apply List.map_congr_left
    intro i hi
    have hilt : i < pool.servers.length := List.mem_range.mp hi
    simp [Nat.mod_eq_of_lt hilt]
  · simp [Nat.mod_self]

/-- Witness for C1 on the concrete two-server all-healthy pool. -/
theorem claim_C1_witness :
    (selectList 3 poolAC).1 = (List.range 2).map Except.ok ++ [Except.ok 0] :=
  claim_C1_round_robin_cycle poolAC 2 rfl (by omega) (by decide) rfl

/-- A selection result never names an unhealthy server, over any number of
consecutive calls. -/
theorem selectList_not_ok_unhealthy : ∀ (n : Nat) (pool : ServerPool) (k : Nat)
    (s : TargetServer), pool.servers[k]? = some s → s.IsHealthy = false →
    Except.ok k ∉ (selectList n pool).1 := by
  intro n
  induction n with
  | zero =>
    intro pool k s _ _ hmem
    simp [selectList] at hmem
  | succ m ih =>
    intro pool k s hk hs hmem
    simp only [selectList, List.mem_cons] at hmem
    rcases hmem with hhead | htail
    · obtain ⟨s2, hk2, hh2⟩ := roundRobinLoop_ok_healthy pool.servers.length pool k hhead.symm
      rw [hk] at hk2
      cases hk2
      rw [hs] at hh2
      exact Bool.false_ne_true hh2
    · refine ih (RoundRobin pool).1 k s ?_ hs htail
      rw [roundRobin_servers]
      exact hk

/-- When the first healthy server of the cyclic scan from the cursor sits at
offset d (every earlier offset holds an unhealthy server), the selection loop
returns exactly the index at offset d and leaves the cursor just past it. -/
theorem roundRobinLoop_first_healthy :
    ∀ (d fuel : Nat) (pool : ServerPool) (s : TargetServer),
    pool.currentIndex < pool.servers.length →
    d < fuel →
    pool.servers[(pool.currentIndex + d) % pool.servers.length]? = some s →
    s.IsHealthy = true →
    (∀ t, t < d → ∀ u,
      pool.servers[(pool.currentIndex + t) % pool.servers.length]? = some u →
      u.IsHealthy = false) →
    roundRobinLoop fuel pool
      = ({ pool with currentIndex := (pool.currentIndex + d + 1) % pool.servers.length },
         Except.ok ((pool.currentIndex + d) % pool.servers.length)) := by
  intro d
  induction d with
  | zero =>
    intro fuel pool s hc hdf hs hh _
    obtain ⟨f, rfl⟩ : ∃ f, fuel = f + 1 := ⟨fuel - 1, by omega⟩
    have hcc : (pool.currentIndex + 0) % pool.servers.length = pool.currentIndex := by
      rw [Nat.add_zero, Nat.mod_eq_of_lt hc]
    rw [hcc] at hs
    have hget : pool.servers[pool.currentIndex] = s := by
      have h2 := List.getElem?_eq_getElem hc
      rw [hs] at h2
      injection h2 with h3
      exact h3.symm
    rw [roundRobinLoop, dif_pos hc,
      if_pos (show (pool.servers.get ⟨pool.currentIndex, hc⟩).IsHealthy = true by
        rw [List.get_eq_getElem, hget]; exact hh),
      incrementCurrentIndex_eq_mod pool hc]
    simp [Nat.mod_eq_of_lt hc]
  | succ dd ih =>
    intro fuel pool s hc hdf hs hh hmin
    obtain ⟨f, rfl⟩ : ∃ f, fuel = f + 1 := ⟨fuel - 1, by omega⟩
    have hN : 0 < pool.servers.length := by omega
    have hcc : (pool.currentIndex + 0) % pool.servers.length = pool.currentIndex := by
      rw [Nat.add_zero, Nat.mod_eq_of_lt hc]
    have hcur : pool.servers[pool.currentIndex].IsHealthy = false := by
      have h0 := hmin 0 (by omega)
      rw [hcc] at h0
      exact h0 pool.servers[pool.currentIndex] (List.getElem?_eq_getElem hc)
    rw [roundRobinLoop, dif_pos hc, if_neg (by simp [hcur]),
      incrementCurrentIndex_eq_mod pool hc]
    have harith : ∀ x, ((pool.currentIndex + 1) % pool.servers.length + x)
        % pool.servers.length = (pool.currentIndex + (x + 1)) % pool.servers.length := by
      intro x
      rw [Nat.mod_add_mod]
      congr 1
      omega
    have hc2 : (pool.currentIndex + 1) % pool.servers.length < pool.servers.length :=
      Nat.mod_lt _ hN
    have hs2 : pool.servers[((pool.currentIndex + 1) % pool.servers.length + dd)
        % pool.servers.length]? = some s := by
      rw [harith dd]
      exact hs
    have hmin2 : ∀ t, t < dd → ∀ u,
        pool.servers[((pool.currentIndex + 1) % pool.servers.length + t)
          % pool.servers.length]? = some u → u.IsHealthy = false := by
      intro t ht u hu
      rw [harith t] at hu
      exact hmin (t + 1) (by omega) u hu
    have ih2 : roundRobinLoop f
        { pool with currentIndex := (pool.currentIndex + 1) % pool.servers.length }
        = ({ pool with currentIndex :=
              ((pool.currentIndex + 1) % pool.servers.length + dd + 1) % pool.servers.length },
           Except.ok (((pool.currentIndex + 1) % pool.servers.length + dd)
             % pool.servers.length)) :=
      ih f { pool with currentIndex := (pool.currentIndex + 1) % pool.servers.length } s
        hc2 (by omega) hs2 hh hmin2
    rw [ih2]
    have e1 : ((pool.currentIndex + 1) % pool.servers.length + dd + 1) % pool.servers.length
        = (pool.currentIndex + (dd + 1) + 1) % pool.servers.length := by
      rw [Nat.add_assoc, harith (dd + 1)]
      congr 1
    have e2 : ((pool.currentIndex + 1) % pool.servers.length + dd) % pool.servers.length
        = (pool.currentIndex + (dd + 1)) % pool.servers.length := harith dd
    rw [e1, e2]

/-- C2: (a) a degraded backend is never selected, over any number of
consecutive calls with no health change in between, on every pool; (b) on
every pool whose first healthy server in the cyclic scan from the cursor sits
at offset d — every index at a smaller offset being degraded — the selection
returns exactly that index and leaves the cursor just past it, so over
consecutive calls the non-degraded indices are returned in their relative
round-robin (cyclic) order; and (c) on the concrete pool [A, B, C] with A and
C healthy, B degraded and cursor 0, three consecutive selections return A
(index 0), C (index 2), A (index 0) while the cursor ends at 1, just past the
most recently returned index 0. -/
theorem claim_C2_degraded_skipped :
    (∀ (pool : ServerPool) (n k : Nat) (s : TargetServer),
        pool.servers[k]? = some s → s.IsHealthy = false →
        Except.ok k ∉ (selectList n pool).1) ∧
    (∀ (pool : ServerPool) (d : Nat) (s : TargetServer),
        pool.currentIndex < pool.servers.length →
        d < pool.servers.length →
        pool.servers[(pool.currentIndex + d) % pool.servers.length]? = some s →
        s.IsHealthy = true →
        (∀ t, t < d → ∀ u,
          pool.servers[(pool.currentIndex + t) % pool.servers.length]? = some u →
          u.IsHealthy = false) →
        RoundRobin pool
          = ({ pool with currentIndex :=
                 (pool.currentIndex + d + 1) % pool.servers.length },
             Except.ok ((pool.currentIndex + d) % pool.servers.length))) ∧
    (selectList 3 poolABC).1 = [Except.ok 0, Except.ok 2, Except.ok 0] ∧
    (selectList 3 poolABC).2.currentIndex = 1 :=
  ⟨fun pool n k s hk hs => selectList_not_ok_unhealthy n pool k s hk hs,
   fun pool d s hc hd hs hh hmin =>
     roundRobinLoop_first_healthy d pool.servers.length pool s hc hd hs hh hmin,
   by decide, by decide⟩

/-- Witness for C2: the degraded middle server of the concrete pool is never
selected across three calls, and the first call returns the first healthy
index of the cyclic scan (offset 0) and advances the cursor past it. -/
theorem claim_C2_witness :
    Except.ok 1 ∉ (selectList 3 poolABC).1 ∧
    RoundRobin poolABC
      = ({ poolABC with currentIndex :=
             (poolABC.currentIndex + 0 + 1) % poolABC.servers.length },
         Except.ok ((poolABC.currentIndex + 0) % poolABC.servers.length)) :=
  ⟨claim_C2_degraded_skipped.1 poolABC 3 1 serverB (by decide) (by decide),
   claim_C2_degraded_skipped.2.1 poolABC 0 serverA (by decide) (by decide) (by decide)
     (by decide) (fun t ht => absurd ht (by omega))⟩

/-- With every server unhealthy, the selection loop always errors out. -/
theorem roundRobinLoop_all_unhealthy : ∀ (fuel : Nat) (pool : ServerPool),
    (∀ s ∈ pool.servers, s.IsHealthy = false) →
    (roundRobinLoop fuel pool).2 = Except.error PoolError.noHealthyServer := by
  intro fuel
  induction fuel with
  | zero => intro pool _; rfl
  | succ m ih =>
    intro pool hall
    rw [roundRobinLoop]
    by_cases h : pool.currentIndex < pool.servers.length
    · have hfalse : pool.servers[pool.currentIndex].IsHealthy = false :=
        hall _ (pool.servers.get_mem _ _)
      rw [dif_pos h, if_neg (by simp [hfalse])]
      refine ih pool.IncrementCurrentIndex ?_
      rw [incrementCurrentIndex_servers]
      exact hall
    · rw [dif_neg h]

/-- With every server unhealthy, n consecutive selections all error out. -/
theorem selectList_all_unhealthy : ∀ (n : Nat) (pool : ServerPool),
    (∀ s ∈ pool.servers, s.IsHealthy = false) →
    (selectList n pool).1 = List.replicate n (Except.error PoolError.noHealthyServer) := by
  intro n
  induction n with
  | zero => intro pool _; rfl
  | succ m ih =>
    intro pool hall
    simp only [selectList, List.replicate_succ]
    refine congrArg₂ List.cons (roundRobinLoop_all_unhealthy pool.servers.length pool hall) ?_
    refine ih (RoundRobin pool).1 ?_
    rw [roundRobin_servers]
    exact hall

/-- C3: on a pool in which every backend is degraded, every round-robin call
returns the NoHealthyServer error and no index, and keeps doing so on every
subsequent call (the pool's servers are untouched, so none becomes healthy). -/
theorem claim_C3_all_degraded_errors (pool : ServerPool)
    (hall : ∀ s ∈ pool.servers, s.IsHealthy = false) :
    ∀ n : Nat,
      (selectList n pool).1 = List.replicate n (Except.error PoolError.noHealthyServer) :=
  fun n => selectList_all_unhealthy n pool hall

/-- Witness for C3 on the concrete pool whose only server is degraded. -/
theorem claim_C3_witness :
    (selectList 2 poolOnlyB).1 = List.replicate 2 (Except.error PoolError.noHealthyServer) :=
  claim_C3_all_degraded_errors poolOnlyB (by decide) 2

/-- When the selection loop errors out after `fuel` scans starting from an
in-range cursor, the final pool is the original pool with its cursor advanced
by `fuel` modulo the pool size and nothing else changed. -/
theorem roundRobinLoop_error_state : ∀ (fuel : Nat) (pool : ServerPool),
    pool.currentIndex < pool.servers.length →
    (roundRobinLoop fuel pool).2 = Except.error PoolError.noHealthyServer →
    (roundRobinLoop fuel pool).1
      = { pool with currentIndex := (pool.currentIndex + fuel) % pool.servers.length } := by
  intro fuel
  induction fuel with
  | zero =>
    intro pool hc _
    show pool = { pool with currentIndex := (pool.currentIndex + 0) % pool.servers.length }
    rw [Nat.add_zero, Nat.mod_eq_of_lt hc]
  | succ m ih =>
    intro pool hc herr
    rw [roundRobinLoop] at herr ⊢
    rw [dif_pos hc] at herr ⊢
    by_cases hh : (pool.servers.get ⟨pool.currentIndex, hc⟩).IsHealthy
    · rw [if_pos hh] at herr
      exact absurd herr (by simp)
    · rw [if_neg hh] at herr ⊢
      have hlen : 0 < pool.servers.length := by omega
      have hinc := incrementCurrentIndex_eq_mod pool hc
      have hc2 : pool.IncrementCurrentIndex.currentIndex
          < pool.IncrementCurrentIndex.servers.length := by
        rw [hinc]
        exact Nat.mod_lt _ hlen
      rw [ih pool.IncrementCurrentIndex hc2 herr, hinc]
      obtain ⟨sv, c, pb⟩ := pool
      simp only [ServerPool.mk.injEq, and_true, true_and]
      rw [Nat.mod_add_mod]
      congr 1
      omega

/-- C10: whenever a round-robin selection scans the whole pool without
finding a healthy backend and returns the NoHealthyServer error, the pool
after the call equals the pool before it: the cursor is back at its starting
position (the wrap-around increments consumed one full pass) and no backend
status or other pool field changed. The well-formedness hypothesis (cursor in
range, or empty pool) is the invariant every reachable Go pool satisfies. -/
theorem claim_C10_failed_scan_frame (pool : ServerPool)
    (hwf : pool.currentIndex < pool.servers.length ∨ pool.servers = [])
    (herr : (RoundRobin pool).2 = Except.error PoolError.noHealthyServer) :
    (RoundRobin pool).1 = pool := by
  rcases hwf with hc | hempty
  · rw [RoundRobin] at herr ⊢
    rw [roundRobinLoop_error_state pool.servers.length pool hc herr,
      Nat.add_mod_right, Nat.mod_eq_of_lt hc]
  · rw [RoundRobin, hempty]
    rfl

/-- Witness for C10 on the concrete pool whose only server is degraded. -/
theorem claim_C10_witness : (RoundRobin poolOnlyB).1 = poolOnlyB :=
  claim_C10_failed_scan_frame poolOnlyB (Or.inl (by decide)) (by decide)

/-- C5: every probe outcome that is a network error, a body-read error, a
JSON-parse error, or a decoded body whose state string is neither "healthy"
nor "degraded" (which covers the empty and the unrecognized state) leaves the
server with status Degraded — so IsHealthy() is false afterwards — and
returns a non-nil error to the caller. -/
theorem claim_C5_probe_errors_degrade (s : TargetServer) (outcome : ProbeOutcome)
    (herr : outcome = ProbeOutcome.netError ∨ outcome = ProbeOutcome.readError ∨
      outcome = ProbeOutcome.parseError ∨
      ∃ hr, outcome = ProbeOutcome.parsed hr ∧
        hr.state ≠ "healthy" ∧ hr.state ≠ "degraded") :
    (s.RefreshHealthStatus outcome).1.health = HealthStatus.statusDegraded ∧
    (s.RefreshHealthStatus outcome).1.IsHealthy = false ∧
    (s.RefreshHealthStatus outcome).2 ≠ none := by
  rcases herr with h | h | h | ⟨hr, h, hhealthy, hdegraded⟩
  · subst h
    exact ⟨rfl, rfl, Option.some_ne_none _⟩
  · subst h
    exact ⟨rfl, rfl, Option.some_ne_none _⟩
  · subst h
    exact ⟨rfl, rfl, Option.some_ne_none _⟩
  · subst h
    simp only [TargetServer.RefreshHealthStatus, TargetServer.GetNewHealthStatus]
    by_cases htrim : trimSpace hr.state = ""
    · simp [getHealthStatusFromResponse, htrim, TargetServer.SetStatus, TargetServer.IsHealthy]
    · simp [getHealthStatusFromResponse, htrim, hhealthy, hdegraded,
        TargetServer.SetStatus, TargetServer.IsHealthy]

/-- Witness for C5 on a network-error probe against the concrete server A. -/
theorem claim_C5_witness :
    (serverA.RefreshHealthStatus ProbeOutcome.netError).1.health
        = HealthStatus.statusDegraded ∧
    (serverA.RefreshHealthStatus ProbeOutcome.netError).1.IsHealthy = false ∧
    (serverA.RefreshHealthStatus ProbeOutcome.netError).2 ≠ none :=
  claim_C5_probe_errors_degrade serverA ProbeOutcome.netError (Or.inl rfl)

/-- C9: backend construction fails on an address that trims to empty, fails
by propagating the wrapped url.Parse error on an unparsable address, and
every successfully constructed backend starts Degraded, with IsHealthy()
false, until some later status write changes it (in the model the only health
mutations are SetStatus and its callers). -/
theorem claim_C9_backend_construction (urlParse : String → Except String URLModel)
    (address : String) :
    (trimSpace address = "" →
        NewTargetServer urlParse address = Except.error PoolError.emptyAddress) ∧
    (∀ e, trimSpace address ≠ "" → urlParse address = Except.error e →
        NewTargetServer urlParse address = Except.error (PoolError.parseFailure e)) ∧
    (∀ s, NewTargetServer urlParse address = Except.ok s →
        s.health = HealthStatus.statusDegraded ∧ s.IsHealthy = false) := by
  refine ⟨?_, ?_, ?_⟩
  · intro h
    simp [NewTargetServer, h]
  · intro e hne hp
    simp [NewTargetServer, hne, hp]
  · intro s hok
    unfold NewTargetServer at hok
    by_cases h : trimSpace address = ""
    · rw [if_pos h] at hok
      simp at hok
    · rw [if_neg h] at hok
      cases hp : urlParse address with
      | error e =>
        rw [hp] at hok
        simp at hok
      | ok u =>
        rw [hp] at hok
        simp only [Except.ok.injEq] at hok
        subst hok
        exact ⟨rfl, rfl⟩

/-- Witness for C9 on the empty address. -/
theorem claim_C9_witness :
    NewTargetServer urlParse0 ("") = Except.error PoolError.emptyAddress :=
  (claim_C9_backend_construction urlParse0 ("")).1 (by decide)


/-- C8: the joined path always consists of the backend prefix a without its
trailing slash (if any), exactly one joining slash, and the request path b
without its leading slash (if any) — i.e. exactly one slash stands at the
junction regardless of whether a ends with a trailing slash or b begins with
a leading slash. -/
theorem claim_C8_one_joining_slash (a b : List Char) :
    singleJoiningSlash a b
      = (if a.getLast? = some '/' then a.dropLast else a)
        ++ '/' :: (if b.head? = some '/' then b.tail else b) := by
  have hdrop : a.getLast? = some '/' → a.dropLast ++ ['/'] = a := fun ha =>
    List.dropLast_append_getLast? '/' (Option.mem_def.mpr ha)
  have hcons : b.head? = some '/' → '/' :: b.tail = b := fun hb =>
    List.cons_head?_tail (Option.mem_def.mpr hb)
  by_cases ha : a.getLast? = some '/' <;> by_cases hb : b.head? = some '/'
  · rw [if_pos ha, if_pos hb]
    simp only [singleJoiningSlash, ha, hb]
    simp only [beq_self_eq_true, Bool.and_self, if_true]
    conv_lhs => rw [← hdrop ha]
    rw [List.append_assoc, List.singleton_append]
  · rw [if_pos ha, if_neg hb]
    have hB : (b.head? == some '/') = false := by simpa using hb
    simp only [singleJoiningSlash, ha, hB]
    simp only [beq_self_eq_true, Bool.and_false, Bool.not_true, Bool.false_and,
      Bool.false_eq_true, if_false]
    conv_lhs => rw [← hdrop ha]
    rw [List.append_assoc, List.singleton_append]
  · rw [if_neg ha, if_pos hb]
    have hA : (a.getLast? == some '/') = false := by simpa using ha
    simp only [singleJoiningSlash, hA, hb]
    simp only [beq_self_eq_true, Bool.false_and, Bool.not_false, Bool.not_true,
      Bool.true_and, Bool.and_false, Bool.false_eq_true, if_false]
    rw [hcons hb]
  · rw [if_neg ha, if_neg hb]
    have hA : (a.getLast? == some '/') = false := by simpa using ha
    have hB : (b.head? == some '/') = false := by simpa using hb
    simp only [singleJoiningSlash, hA, hB]
    simp only [Bool.false_and, Bool.not_false, Bool.and_self, Bool.false_eq_true, if_false,
      if_true]
    rw [List.append_assoc, List.singleton_append]

/-- C4 counterexample: against a pool whose only backend is healthy and
answers every round trip with status 502 — a server-error (5xx) status — the
dispatcher relays the 502 to the client and leaves the pool untouched (the
backend is still healthy, no degrade, no re-dispatch), contradicting the
claim that every 5xx response triggers degrade-and-retry. -/
theorem claim_C4_counterexample :
    listenerHandler behavior502 2 poolOnlyA = (DispatchResult.response 502, poolOnlyA) ∧
    (poolOnlyA.servers.all fun s => s.IsHealthy) = true := by
  exact ⟨by decide, by decide⟩

/-- C4 amended: only a backend response with status exactly 500
(http.StatusInternalServerError) makes the dispatcher mark the selected
backend Degraded and re-run the whole dispatch from selection; a response
with any other status code — including the other 5xx codes — is relayed to
the client as is, with no degrade and no retry. -/
theorem claim_C4_amended_500_retry (behavior : String → Option Nat)
    (pool pool1 : ServerPool) (fuel i : Nat) (target : TargetServer)
    (hrr : RoundRobin pool = (pool1, Except.ok i))
    (htarget : pool1.servers[i]? = some target) :
    (behavior target.address = some 500 →
        listenerHandler behavior (fuel + 1) pool
          = listenerHandler behavior fuel
              { pool1 with servers := pool1.servers.set i target.Degrade } ∧
        ({ pool1 with servers := pool1.servers.set i target.Degrade } : ServerPool).servers[i]?
          = some target.Degrade ∧
        target.Degrade.IsHealthy = false) ∧
    (∀ code, behavior target.address = some code → code ≠ 500 →
        listenerHandler behavior (fuel + 1) pool = (DispatchResult.response code, pool1)) := by
  have hi : i < pool1.servers.length := by
    rcases List.getElem?_eq_some_iff.mp htarget with ⟨h, _⟩
    exact h
  constructor
  · intro h500
    refine ⟨?_, ?_, rfl⟩
    · simp only [listenerHandler, hrr, htarget, h500]
      simp
    · show (pool1.servers.set i target.Degrade)[i]? = some target.Degrade
      exact List.getElem?_set_self hi
  · intro code hcode hne
    simp only [listenerHandler, hrr, htarget, hcode]
    rw [if_neg hne]

/-- Witness for the amended C4 on the concrete one-server pool under the
all-500 backend world. -/
theorem claim_C4_witness :
    listenerHandler behavior500 1 poolOnlyA
      = listenerHandler behavior500 0
          { poolOnlyA with servers := poolOnlyA.servers.set 0 serverA.Degrade } ∧
    ({ poolOnlyA with servers := poolOnlyA.servers.set 0 serverA.Degrade } : ServerPool).servers[0]?
      = some serverA.Degrade ∧
    serverA.Degrade.IsHealthy = false :=
  (claim_C4_amended_500_retry behavior500 poolOnlyA poolOnlyA 0 0 serverA
    (by decide) (by decide)).1 rfl

/-- Degrading a healthy server at index i decreases the healthy count by
exactly one. -/
theorem countP_set_degrade : ∀ (l : List TargetServer) (i : Nat) (s : TargetServer),
    l[i]? = some s → s.IsHealthy = true →
    (l.set i s.Degrade).countP (fun t => t.IsHealthy) + 1
      = l.countP (fun t => t.IsHealthy) := by
  intro l
  induction l with
  | nil => intro i s h _; simp at h
  | cons x xs ih =>
    intro i s h hh
    cases i with
    | zero =>
      simp only [List.getElem?_cons_zero, Option.some.injEq] at h
      subst h
      have hxh : x.health = HealthStatus.statusHealthy := by
        simpa [TargetServer.IsHealthy] using hh
      simp [List.countP_cons, hxh, TargetServer.Degrade, TargetServer.SetStatus,
        TargetServer.IsHealthy]
    | succ n =>
      simp only [List.getElem?_cons_succ] at h
      have := ih n s h hh
      simp only [List.set_cons_succ, List.countP_cons]
      omega

/-- With more fuel than healthy servers, the dispatch recursion never
exhausts its fuel: each 500-retry degrades the healthy server it had
selected, strictly decreasing the healthy count. -/
theorem listenerHandler_no_fuel_exhaustion : ∀ (fuel : Nat) (pool : ServerPool)
    (behavior : String → Option Nat), pool.healthyCount < fuel →
    (listenerHandler behavior fuel pool).1 ≠ DispatchResult.outOfFuel := by
  intro fuel
  induction fuel with
  | zero => intro pool behavior h; omega
  | succ m ih =>
    intro pool behavior hcount
    rcases hrr : RoundRobin pool with ⟨pool1, r⟩
    cases r with
    | error e => simp [listenerHandler, hrr]
    | ok i =>
      have h2 : (RoundRobin pool).2 = Except.ok i := by rw [hrr]
      obtain ⟨s, hsome, hh⟩ := roundRobinLoop_ok_healthy pool.servers.length pool i h2
      have hs1 : pool1.servers = pool.servers := by
        have hsv := roundRobin_servers pool
        rw [hrr] at hsv
        exact hsv
      have htarget : pool1.servers[i]? = some s := by
        rw [hs1]
        exact hsome
      cases hbeh : behavior s.address with
      | none => simp [listenerHandler, hrr, htarget, hbeh]
      | some code =>
        by_cases hc : code = 500
        · subst hc
          simp only [listenerHandler, hrr, htarget, hbeh, reduceIte]
          refine ih _ behavior ?_
          have hcnt : ({ pool1 with servers := pool1.servers.set i s.Degrade }
              : ServerPool).healthyCount + 1 = pool.healthyCount := by
            show (pool1.servers.set i s.Degrade).countP (fun t => t.IsHealthy) + 1
              = pool.servers.countP (fun t => t.IsHealthy)
            rw [hs1]
            exact countP_set_degrade pool.servers i s hsome hh
          omega
        · simp only [listenerHandler, hrr, htarget, hbeh]
          rw [if_neg hc]
          simp

/-- In a backend world where every round trip answers 500, dispatch with more
fuel than healthy servers ends in the 503 error response written after
selection finally fails. -/
theorem listenerHandler_all_500 : ∀ (fuel : Nat) (pool : ServerPool)
    (behavior : String → Option Nat), (∀ addr, behavior addr = some 500) →
    pool.healthyCount < fuel →
    (listenerHandler behavior fuel pool).1 = DispatchResult.errorResponse 503 := by
  intro fuel
  induction fuel with
  | zero => intro pool behavior _ h; omega
  | succ m ih =>
    intro pool behavior h500 hcount
    rcases hrr : RoundRobin pool with ⟨pool1, r⟩
    cases r with
    | error e => simp [listenerHandler, hrr]
    | ok i =>
      have h2 : (RoundRobin pool).2 = Except.ok i := by rw [hrr]
      obtain ⟨s, hsome, hh⟩ := roundRobinLoop_ok_healthy pool.servers.length pool i h2
      have hs1 : pool1.servers = pool.servers := by
        have hsv := roundRobin_servers pool
        rw [hrr] at hsv
        exact hsv
      have htarget : pool1.servers[i]? = some s := by
        rw [hs1]
        exact hsome
      simp only [listenerHandler, hrr, htarget, h500 s.address, reduceIte]
      refine ih _ behavior h500 ?_
      have hcnt : ({ pool1 with servers := pool1.servers.set i s.Degrade }
          : ServerPool).healthyCount + 1 = pool.healthyCount := by
        show (pool1.servers.set i s.Degrade).countP (fun t => t.IsHealthy) + 1
          = pool.servers.countP (fun t => t.IsHealthy)
        rw [hs1]
        exact countP_set_degrade pool.servers i s hsome hh
      omega

/-- C6: with health statuses changing only through the dispatcher's own
Degrade calls (encoded by the fixed behavior map), the degrade-and-retry
recursion terminates — with any fuel beyond the healthy count the
fuel-exhaustion marker is unreachable, because each retry first degrades the
healthy backend that returned the server error — and when every backend
answers 500, dispatch with N+1 attempts (at most N retries for a pool of N
backends) ends with the client receiving the 503 error response. -/
theorem claim_C6_retry_terminates (pool : ServerPool) (behavior : String → Option Nat)
    (h500 : ∀ addr, behavior addr = some 500) :
    (∀ (behavior2 : String → Option Nat) (fuel : Nat), pool.healthyCount < fuel →
        (listenerHandler behavior2 fuel pool).1 ≠ DispatchResult.outOfFuel) ∧
    (listenerHandler behavior (pool.servers.length + 1) pool).1
      = DispatchResult.errorResponse 503 := by
  constructor
  · intro behavior2 fuel h
    exact listenerHandler_no_fuel_exhaustion fuel pool behavior2 h
  · refine listenerHandler_all_500 _ pool behavior h500 ?_
    have hle : pool.healthyCount ≤ pool.servers.length := List.countP_le_length _
    omega

/-- Witness for C6 on the concrete two-healthy-server pool under the all-500
backend world. -/
theorem claim_C6_witness :
    (listenerHandler behavior500 (poolAC.servers.length + 1) poolAC).1
      = DispatchResult.errorResponse 503 :=
  (claim_C6_retry_terminates poolAC behavior500 (fun _ => rfl)).2

/-- When every address constructs and the combined seen-plus-remaining list has a
repeat, the construction scan ends in the duplicate-address error. -/
theorem buildServers_dup (urlParse : String → Except String URLModel) :
    ∀ (l seen : List String), seen.Nodup →
    (∀ a ∈ l, ∃ s, NewTargetServer urlParse a = Except.ok s) →
    ¬ (seen ++ l).Nodup →
    buildServers urlParse seen l = Except.error PoolError.duplicateServerAddress := by
  intro l
  induction l with
  | nil =>
    intro seen hseen _ hdup
    rw [List.append_nil] at hdup
    exact absurd hseen hdup
  | cons a rest ih =>
    intro seen hseen hall hdup
    rw [buildServers]
    by_cases hmem : a ∈ seen
    · rw [if_pos (List.elem_iff.mpr hmem)]
    · have hc : ¬ (seen.contains a = true) := fun hcc => hmem (List.elem_iff.mp hcc)
      obtain ⟨s, hs⟩ := hall a (List.mem_cons_self a rest)
      have hperm : List.Perm (seen ++ a :: rest) (a :: (seen ++ rest)) := List.perm_middle
      have hdup2 : ¬ ((a :: seen) ++ rest).Nodup := by
        intro hnd
        exact hdup (hperm.nodup_iff.mpr hnd)
      have hseen2 : (a :: seen).Nodup := List.nodup_cons.mpr ⟨hmem, hseen⟩
      have hrec := ih (a :: seen) hseen2 (fun x hx => hall x (List.mem_cons_of_mem a hx)) hdup2
      rw [if_neg hc, hs, hrec]

/-- With no duplicates in sight, a failing address makes the scan propagate
that address's construction error. -/
theorem buildServers_err (urlParse : String → Except String URLModel) :
    ∀ (l seen : List String), (seen ++ l).Nodup →
    (∃ a ∈ l, ∃ e, NewTargetServer urlParse a = Except.error e) →
    ∃ a ∈ l, ∃ e, NewTargetServer urlParse a = Except.error e ∧
      buildServers urlParse seen l = Except.error e := by
  intro l
  induction l with
  | nil =>
    intro seen _ hex
    simp at hex
  | cons a rest ih =>
    intro seen hnodup hex
    have hperm : List.Perm (seen ++ a :: rest) (a :: (seen ++ rest)) := List.perm_middle
    have hnodup2 : (a :: (seen ++ rest)).Nodup := hperm.nodup_iff.mp hnodup
    have hnotmem : a ∉ seen ++ rest := (List.nodup_cons.mp hnodup2).1
    have hmem : a ∉ seen := fun hx => hnotmem (List.mem_append_left rest hx)
    have hc : ¬ (seen.contains a = true) := fun hcc => hmem (List.elem_iff.mp hcc)
    cases hcon : NewTargetServer urlParse a with
    | error e =>
      refine ⟨a, List.mem_cons_self a rest, e, hcon, ?_⟩
      rw [buildServers, if_neg hc, hcon]
    | ok s =>
      have hex2 : ∃ x ∈ rest, ∃ e, NewTargetServer urlParse x = Except.error e := by
        rcases hex with ⟨x, hxmem, e, he⟩
        rcases List.mem_cons.mp hxmem with hxa | hxr
        · subst hxa
          rw [hcon] at he
          exact absurd he (by simp)
        · exact ⟨x, hxr, e, he⟩
      have hnodup3 : ((a :: seen) ++ rest).Nodup := hnodup2
      obtain ⟨x, hxmem, e, he, hbs⟩ := ih (a :: seen) hnodup3 hex2
      refine ⟨x, List.mem_cons_of_mem a hxmem, e, he, ?_⟩
      rw [buildServers, if_neg hc, hcon, hbs]

/-- With no duplicates and every address constructing, the scan returns the
constructed servers one-to-one, in input order. -/
theorem buildServers_ok (urlParse : String → Except String URLModel) :
    ∀ (l seen : List String), (seen ++ l).Nodup →
    (∀ a ∈ l, ∃ s, NewTargetServer urlParse a = Except.ok s) →
    ∃ servers, buildServers urlParse seen l = Except.ok servers ∧
      servers.length = l.length ∧
      ∀ (i : Nat) (hi : i < l.length) (hs : i < servers.length),
        NewTargetServer urlParse (l.get ⟨i, hi⟩) = Except.ok (servers.get ⟨i, hs⟩) := by
  intro l
  induction l with
  | nil =>
    intro seen _ _
    refine ⟨[], rfl, rfl, ?_⟩
    intro i hi
    exact absurd hi (by simp)
  | cons a rest ih =>
    intro seen hnodup hall
    have hperm : List.Perm (seen ++ a :: rest) (a :: (seen ++ rest)) := List.perm_middle
    have hnodup2 : (a :: (seen ++ rest)).Nodup := hperm.nodup_iff.mp hnodup
    have hnotmem : a ∉ seen ++ rest := (List.nodup_cons.mp hnodup2).1
    have hmem : a ∉ seen := fun hx => hnotmem (List.mem_append_left rest hx)
    have hc : ¬ (seen.contains a = true) := fun hcc => hmem (List.elem_iff.mp hcc)
    obtain ⟨s, hs⟩ := hall a (List.mem_cons_self a rest)
    have hnodup3 : ((a :: seen) ++ rest).Nodup := hnodup2
    obtain ⟨servers, hbs, hlen, hpt⟩ :=
      ih (a :: seen) hnodup3 (fun x hx => hall x (List.mem_cons_of_mem a hx))
    refine ⟨s :: servers, ?_, by simp [hlen], ?_⟩
    · rw [buildServers, if_neg hc, hs, hbs]
    · intro i hi hsi
      cases i with
      | zero => exact hs
      | succ n => exact hpt n (by simpa using hi) (by simpa using hsi)

/-- C7: pool construction fails with the empty-address-list error on zero
entries; fails with the duplicate-address error when two entries are
identical (and no entry fails construction first, since the scan interleaves
the checks per address in order); propagates the per-address construction
failure of NewTargetServer when the addresses are distinct and one of them is
empty or unparsable; and otherwise returns a pool whose backend sequence
corresponds one-to-one, in order, to the given addresses. -/
theorem claim_C7_pool_construction (urlParse : String → Except String URLModel)
    (addrs : List String) :
    (addrs = [] →
        NewServerPool urlParse addrs = Except.error PoolError.noServerAddressForPool) ∧
    ((∀ a ∈ addrs, ∃ s, NewTargetServer urlParse a = Except.ok s) → ¬ addrs.Nodup →
        NewServerPool urlParse addrs = Except.error PoolError.duplicateServerAddress) ∧
    (addrs.Nodup → (∃ a ∈ addrs, ∃ e, NewTargetServer urlParse a = Except.error e) →
        ∃ a ∈ addrs, ∃ e, NewTargetServer urlParse a = Except.error e ∧
          NewServerPool urlParse addrs = Except.error e) ∧
    (addrs ≠ [] → addrs.Nodup →
        (∀ a ∈ addrs, ∃ s, NewTargetServer urlParse a = Except.ok s) →
        ∃ servers,
          NewServerPool urlParse addrs
            = Except.ok { servers := servers, currentIndex := 0, pauseHealthCheck := false } ∧
          servers.length = addrs.length ∧
          ∀ (i : Nat) (hi : i < addrs.length) (hs : i < servers.length),
            NewTargetServer urlParse (addrs.get ⟨i, hi⟩) = Except.ok (servers.get ⟨i, hs⟩)) := by
  refine ⟨?_, ?_, ?_, ?_⟩
  · intro h
    subst h
    rfl
  · intro hall hdup
    have hne : addrs ≠ [] := by
      intro h
      subst h
      exact hdup List.nodup_nil
    have hlen : ¬ (addrs.length < 1) := by
      cases addrs with
      | nil => exact absurd rfl hne
      | cons x xs => simp
    have hbs := buildServers_dup urlParse addrs [] List.nodup_nil hall hdup
    unfold NewServerPool
    rw [if_neg hlen, hbs]
  · intro hnodup hex
    obtain ⟨a, hmem, e, he, hbs⟩ := buildServers_err urlParse addrs [] hnodup hex
    have hne : addrs ≠ [] := List.ne_nil_of_mem hmem
    have hlen : ¬ (addrs.length < 1) := by
      cases addrs with
      | nil => exact absurd rfl hne
      | cons x xs => simp
    refine ⟨a, hmem, e, he, ?_⟩
    unfold NewServerPool
    rw [if_neg hlen, hbs]
  · intro hne hnodup hall
    obtain ⟨servers, hbs, hlen2, hpt⟩ := buildServers_ok urlParse addrs [] hnodup hall
    have hlen : ¬ (addrs.length < 1) := by
      cases addrs with
      | nil => exact absurd rfl hne
      | cons x xs => simp
    refine ⟨servers, ?_, hlen2, hpt⟩
    unfold NewServerPool
    rw [if_neg hlen, hbs]

/-- Witness for C7 on the empty list and on a concrete duplicated list. -/
theorem claim_C7_witness :
    NewServerPool urlParse0 [] = Except.error PoolError.noServerAddressForPool ∧
    NewServerPool urlParse0 [("x"), ("x")] = Except.error PoolError.duplicateServerAddress :=
  ⟨(claim_C7_pool_construction urlParse0 []).1 rfl,
   (claim_C7_pool_construction urlParse0 [("x"), ("x")]).2.1
     (by
       intro a ha
       rcases List.mem_cons.mp ha with h | h
       · subst h
         exact ⟨{ address := "x", url := url0, load := 0,
                  health := HealthStatus.statusDegraded }, by decide⟩
       · rcases List.mem_cons.mp h with h2 | h2
         · subst h2
           exact ⟨{ address := "x", url := url0, load := 0,
                    health := HealthStatus.statusDegraded }, by decide⟩
         · simp at h2)
     (by decide)⟩
